import Mathlib

/-!
Verification development for the guideline-to-knowledge-graph orchestration
pipeline.  The repository contains three prototype implementations; the
definitions below are shallow embeddings, translated from:

* `processor.py` — `GuidelineProcessor.extract_json_from_markdown` and
  `GuidelineProcessor._fix_json_syntax` (the response normalizer);
* `old/agents.py` — `BaseAgent.extract_json_from_response`, the
  Manager/Drug/Diagnosis agent step functions and the knowledge-graph
  aggregation inside `MultiAgentSystem.extract_kg_and_cohort_analysis`;
* `src/llm_source_to_kg/graph/cohort_graph/` — `route_after_validation`,
  `validate_cohort`, `retry_extract_cohort` and the validate/retry loop;
* `langgraph_v1/src/graph/workflow.py` — the `load_document` content
  flattening.

Python strings are modelled as `List Char` (with `String` wrappers at the
interfaces), dictionaries with a fixed key set as structures whose `Option`
fields model missing keys or `None` values, and `json.loads` as a fuelled
strict JSON reader.
-/

/-- JSON values as produced by `json.loads`.  Numbers keep their source
token: none of the verified properties depend on numeric value, only on
parse success and structure. -/
inductive Json where
  | null
  | bool (b : Bool)
  | num (tok : List Char)
  | str (s : List Char)
  | arr (items : List Json)
  | obj (members : List (List Char × Json))

/-- Opening brace character, written via its code point. -/
def obr : Char := Char.ofNat 123

/-- Closing brace character, written via its code point. -/
def cbr : Char := Char.ofNat 125

/-- Single-quote character, written via its code point. -/
def sqc : Char := Char.ofNat 39

/-- Whitespace accepted between JSON tokens by Python `json.loads`
(space, tab, newline, carriage return). -/
def isJsonWs (c : Char) : Bool :=
  c == ' ' || c == '\t' || c == '\n' || c == '\r'

/-- Drop leading JSON whitespace. -/
def jskipWs (cs : List Char) : List Char := cs.dropWhile isJsonWs

/-- Test for a list-of-chars prefix. -/
def startsWithL : List Char → List Char → Bool
  | [], _ => true
  | _ :: _, [] => false
  | p :: ps, c :: cs => p == c && startsWithL ps cs

/-- Numeric value of a hexadecimal digit, if any. -/
def hexVal (c : Char) : Option Nat :=
  if '0' ≤ c ∧ c ≤ '9' then some (c.toNat - 48)
  else if 'a' ≤ c ∧ c ≤ 'f' then some (c.toNat - 87)
  else if 'A' ≤ c ∧ c ≤ 'F' then some (c.toNat - 70)
  else none

/-- Body of a JSON string literal, after the opening quote: returns the
unescaped content and the remainder after the closing quote.  Control
characters below 0x20 are rejected (strict mode of `json.loads`). -/
def readStrBody : Nat → List Char → Option (List Char × List Char)
  | 0, _ => none
  | _ + 1, [] => none
  | fuel + 1, c :: tl =>
    if c == '"' then some ([], tl)
    else if c == '\\' then
      match tl with
      | [] => none
      | e :: tl2 =>
        if e == '"' ∨ e == '\\' ∨ e == '/' then
          (readStrBody fuel tl2).map (fun p => (e :: p.1, p.2))
        else if e == 'b' then
          (readStrBody fuel tl2).map (fun p => (Char.ofNat 8 :: p.1, p.2))
        else if e == 'f' then
          (readStrBody fuel tl2).map (fun p => (Char.ofNat 12 :: p.1, p.2))
        else if e == 'n' then
          (readStrBody fuel tl2).map (fun p => ('\n' :: p.1, p.2))
        else if e == 'r' then
          (readStrBody fuel tl2).map (fun p => ('\r' :: p.1, p.2))
        else if e == 't' then
          (readStrBody fuel tl2).map (fun p => ('\t' :: p.1, p.2))
        else if e == 'u' then
          match tl2 with
          | h1 :: h2 :: h3 :: h4 :: tl3 =>
            match hexVal h1, hexVal h2, hexVal h3, hexVal h4 with
            | some a, some b, some cc, some d =>
              (readStrBody fuel tl3).map
                (fun p => (Char.ofNat (((a * 16 + b) * 16 + cc) * 16 + d) :: p.1, p.2))
            | _, _, _, _ => none
          | _ => none
        else none
    else if c.toNat < 32 then none
    else (readStrBody fuel tl).map (fun p => (c :: p.1, p.2))

/-- One-or-more decimal digits; returns them and the rest. -/
def readDigits (cs : List Char) : Option (List Char × List Char) :=
  let ds := cs.takeWhile Char.isDigit
  if ds.isEmpty then none else some (ds, cs.drop ds.length)

/-- JSON number token: `-? (0 | [1-9][0-9]*) (\.[0-9]+)? ([eE][+-]?[0-9]+)?`. -/
def readNumTok (cs : List Char) : Option (List Char × List Char) := do
  let (sign, cs1) := match cs with
    | '-' :: tl => (['-'], tl)
    | _ => (([] : List Char), cs)
  let (intPart, cs2) ← match cs1 with
    | '0' :: tl => some (['0'], tl)
    | c :: _ =>
      if c.isDigit then readDigits cs1 else none
    | [] => none
  let (fracPart, cs3) ← match cs2 with
    | '.' :: tl => (readDigits tl).map (fun p => ('.' :: p.1, p.2))
    | _ => some (([] : List Char), cs2)
  let (expPart, cs4) ← match cs3 with
    | c :: tl =>
      if c == 'e' ∨ c == 'E' then
        match tl with
        | s :: tl2 =>
          if s == '+' ∨ s == '-' then
            (readDigits tl2).map (fun p => (c :: s :: p.1, p.2))
          else (readDigits tl).map (fun p => (c :: p.1, p.2))
        | [] => none
      else some (([] : List Char), cs3)
    | [] => some (([] : List Char), cs3)
  some (sign ++ intPart ++ fracPart ++ expPart, cs4)

mutual

/-- Fuelled strict JSON value reader mirroring `json.loads` (which also
accepts the `NaN` and `Infinity` extensions by default). -/
def readVal : Nat → List Char → Option (Json × List Char)
  | 0, _ => none
  | fuel + 1, csRaw =>
    let cs := jskipWs csRaw
    match cs with
    | [] => none
    | c :: tl =>
      if c == '"' then
        (readStrBody (tl.length + 1) tl).map (fun p => (Json.str p.1, p.2))
      else if c == obr then readObjBody fuel (jskipWs tl)
      else if c == '[' then readArrBody fuel (jskipWs tl)
      else if startsWithL "true".data cs then some (Json.bool true, cs.drop 4)
      else if startsWithL "false".data cs then some (Json.bool false, cs.drop 5)
      else if startsWithL "null".data cs then some (Json.null, cs.drop 4)
      else if startsWithL "NaN".data cs then some (Json.num "NaN".data, cs.drop 3)
      else if startsWithL "Infinity".data cs then
        some (Json.num "Infinity".data, cs.drop 8)
      else if startsWithL "-Infinity".data cs then
        some (Json.num "-Infinity".data, cs.drop 9)
      else (readNumTok cs).map (fun p => (Json.num p.1, p.2))

/-- Object body after the opening brace (whitespace already skipped). -/
def readObjBody : Nat → List Char → Option (Json × List Char)
  | 0, _ => none
  | fuel + 1, cs =>
    match cs with
    | [] => none
    | c :: tl =>
      if c == cbr then some (Json.obj [], tl)
      else readMembers fuel cs []

/-- Comma-separated `"key": value` members, ending at a closing brace. -/
def readMembers : Nat → List Char → List (List Char × Json) →
    Option (Json × List Char)
  | 0, _, _ => none
  | fuel + 1, cs, acc =>
    match cs with
    | '"' :: tl =>
      match readStrBody (tl.length + 1) tl with
      | none => none
      | some (key, rest1) =>
        match jskipWs rest1 with
        | ':' :: rest2 =>
          match readVal fuel rest2 with
          | none => none
          | some (v, rest3) =>
            match jskipWs rest3 with
            | ',' :: rest4 => readMembers fuel (jskipWs rest4) (acc ++ [(key, v)])
            | c :: rest4 =>
              if c == cbr then some (Json.obj (acc ++ [(key, v)]), rest4) else none
            | [] => none
        | _ => none
    | _ => none

/-- Array body after the opening bracket (whitespace already skipped). -/
def readArrBody : Nat → List Char → Option (Json × List Char)
  | 0, _ => none
  | fuel + 1, cs =>
    match cs with
    | [] => none
    | c :: tl =>
      if c == ']' then some (Json.arr [], tl)
      else readItems fuel cs []

/-- Comma-separated array items, ending at a closing bracket. -/
def readItems : Nat → List Char → List Json → Option (Json × List Char)
  | 0, _, _ => none
  | fuel + 1, cs, acc =>
    match readVal fuel cs with
    | none => none
    | some (v, rest1) =>
      match jskipWs rest1 with
      | ',' :: rest2 => readItems fuel rest2 (acc ++ [v])
      | ']' :: rest2 => some (Json.arr (acc ++ [v]), rest2)
      | _ => none

end

/-- Model of Python `json.loads`: parse one JSON value and require that only
whitespace remains; `none` models a raised `json.JSONDecodeError`. -/
def jsonLoads (s : String) : Option Json :=
  match readVal (2 * s.data.length + 2) s.data with
  | some (v, rest) => if jskipWs rest = [] then some v else none
  | none => none


/-!
Response normalizer of `processor.py` (`GuidelineProcessor.extract_json_from_markdown`
and `GuidelineProcessor._fix_json_syntax`).  Each Python regex operation is
modelled by an explicit scanner with the same matching semantics, noted at
each definition.
-/

/-- Whitespace class of the regex `\s` and of `str.strip` for the ASCII
range (the repository only feeds ASCII markup around the JSON payload). -/
def isPySpace (c : Char) : Bool :=
  c == ' ' || c == '\t' || c == '\n' || c == '\r' ||
    c == Char.ofNat 11 || c == Char.ofNat 12

/-- Python `str.strip()`. -/
def pyStrip (cs : List Char) : List Char :=
  ((cs.dropWhile isPySpace).reverse.dropWhile isPySpace).reverse

/-- Split at the first occurrence of `pat` (a non-empty literal pattern):
returns the text before it and the text after it. -/
def splitAtSub (pat : List Char) : List Char → Option (List Char × List Char)
  | [] => if startsWithL pat [] then some ([], []) else none
  | c :: cs =>
    if startsWithL pat (c :: cs) then some ([], (c :: cs).drop pat.length)
    else
      match splitAtSub pat cs with
      | some (pre, post) => some (c :: pre, post)
      | none => none

/-- Triple-backtick fence delimiter. -/
def fenceTok : List Char := "```".data

/-- Optional language tag consumed by the fence pattern. -/
def jsonTok : List Char := "json".data

/-- Worker for the think-tag removal substitution: each match runs from a
literal opening think tag to the first closing think tag after it; scanning
resumes after the removed region. -/
def removeThinkAux : Nat → List Char → List Char
  | 0, cs => cs
  | fuel + 1, cs =>
    match cs with
    | [] => []
    | c :: tl =>
      if startsWithL "<think>".data (c :: tl) then
        match splitAtSub "</think>".data ((c :: tl).drop 7) with
        | some (_, post) => removeThinkAux fuel post
        | none => c :: removeThinkAux fuel tl
      else c :: removeThinkAux fuel tl

/-- Removal of think-tag regions, the first step of
`extract_json_from_markdown`. -/
def removeThink (cs : List Char) : List Char := removeThinkAux cs.length cs

/-- Worker for `re.findall` of the fence pattern: at an opening fence the
regex consumes an optional literal `json` tag, then greedy whitespace, and
lazily captures up to the next fence; scanning resumes after the closing
fence.  An opening fence with no closing fence matches nothing, and then no
later fence can exist either. -/
def fencedAux : Nat → List Char → List (List Char)
  | 0, _ => []
  | fuel + 1, cs =>
    match splitAtSub fenceTok cs with
    | none => []
    | some (_, afterOpen) =>
      let r1 := if startsWithL jsonTok afterOpen then afterOpen.drop 4 else afterOpen
      let r2 := r1.dropWhile isPySpace
      match splitAtSub fenceTok r2 with
      | some (content, afterClose) => content :: fencedAux fuel afterClose
      | none => []

/-- All captures of the fenced-code-block pattern of
`extract_json_from_markdown` (step 1 there). -/
def fencedFindAll (cs : List Char) : List (List Char) := fencedAux cs.length cs

/-- Python `max(matches, key=len)` over possibly-empty match lists: the
first longest element, or `none` when there are no matches. -/
def longestOf (l : List (List Char)) : Option (List Char) :=
  l.foldl
    (fun acc m =>
      match acc with
      | none => some m
      | some b => if m.length > b.length then some m else some b)
    none

/-- Everything up to and including the last closing brace of a list. -/
def takeThroughLastClose (cs : List Char) : List Char :=
  (cs.reverse.dropWhile (fun c => !(c == cbr))).reverse

/-- Worker for `re.findall` of the greedy brace pattern: at the first
opening brace that is followed by some closing brace, the greedy match runs
to the last closing brace of the text; after it no closing brace remains,
so an opening brace with no later closing brace ends the scan. -/
def bracketAux : Nat → List Char → List (List Char)
  | 0, _ => []
  | fuel + 1, cs =>
    let rest := cs.dropWhile (fun c => !(c == obr))
    match rest with
    | [] => []
    | _ :: tl =>
      if tl.any (fun c => c == cbr) then
        takeThroughLastClose tl |> fun m =>
          (obr :: m) :: bracketAux fuel (tl.drop m.length)
      else []

/-- All matches of the balanced-brace pattern of
`extract_json_from_markdown` (step 3 there). -/
def bracketFindAll (cs : List Char) : List (List Char) := bracketAux cs.length cs

/-- Worker for the first substitution of `_fix_json_syntax`: a
single-quoted run with no inner quote, directly followed by a colon,
becomes a double-quoted key.  On a failed attempt the scan advances one
character, as the regex engine does. -/
def fixKeysAux : Nat → List Char → List Char
  | 0, cs => cs
  | fuel + 1, cs =>
    match cs with
    | [] => []
    | c :: tl =>
      if c == sqc then
        match splitAtSub [sqc] tl with
        | some (content, rest) =>
          match rest with
          | r :: rtl =>
            if r == ':' then '"' :: (content ++ '"' :: ':' :: fixKeysAux fuel rtl)
            else c :: fixKeysAux fuel tl
          | [] => c :: fixKeysAux fuel tl
        | none => c :: fixKeysAux fuel tl
      else c :: fixKeysAux fuel tl

/-- Worker for the second substitution of `_fix_json_syntax`: a colon,
greedy whitespace, then a single-quoted run becomes a colon, one space and
a double-quoted value. -/
def fixValsAux : Nat → List Char → List Char
  | 0, cs => cs
  | fuel + 1, cs =>
    match cs with
    | [] => []
    | c :: tl =>
      if c == ':' then
        match tl.dropWhile isPySpace with
        | q :: qtl =>
          if q == sqc then
            match splitAtSub [sqc] qtl with
            | some (content, rest) =>
              ':' :: ' ' :: '"' :: (content ++ '"' :: fixValsAux fuel rest)
            | none => c :: fixValsAux fuel tl
          else c :: fixValsAux fuel tl
        | [] => c :: fixValsAux fuel tl
      else c :: fixValsAux fuel tl

/-- Worker for the trailing-comma substitutions of `_fix_json_syntax`:
a comma, greedy whitespace and a closing delimiter collapse to just the
closing delimiter. -/
def fixTrailingAux (close : Char) : Nat → List Char → List Char
  | 0, cs => cs
  | fuel + 1, cs =>
    match cs with
    | [] => []
    | c :: tl =>
      if c == ',' then
        match tl.dropWhile isPySpace with
        | x :: xtl =>
          if x == close then close :: fixTrailingAux close fuel xtl
          else c :: fixTrailingAux close fuel tl
        | [] => c :: fixTrailingAux close fuel tl
      else c :: fixTrailingAux close fuel tl

/-- Worker for the comment substitution of `_fix_json_syntax` (multiline
mode): a double slash deletes the rest of its line, keeping the newline. -/
def fixCommentsAux : Nat → List Char → List Char
  | 0, cs => cs
  | fuel + 1, cs =>
    match cs with
    | c :: d :: tl =>
      if c == '/' && d == '/' then
        fixCommentsAux fuel (tl.dropWhile (fun x => !(x == '\n')))
      else c :: fixCommentsAux fuel (d :: tl)
    | [c] => [c]
    | [] => []

/-- Model of `GuidelineProcessor._fix_json_syntax`: the four regex
substitutions applied in source order. -/
def fixJsonText (cs : List Char) : List Char :=
  let s1 := fixKeysAux cs.length cs
  let s2 := fixValsAux s1.length s1
  let s3 := fixTrailingAux cbr s2.length s2
  let s4 := fixTrailingAux ']' s3.length s3
  fixCommentsAux s4.length s4

/-- Step 4 and step 5 of `extract_json_from_markdown`: try the syntax
repairs, and if even the repaired text does not parse, return the input
text as a last resort. -/
def ejmRepair (t : List Char) : String :=
  let fixed := fixJsonText t
  if (jsonLoads (String.mk fixed)).isSome then String.mk fixed else String.mk t

/-- Steps 2 and 3 of `extract_json_from_markdown`, reached when no fenced
code block parsed: whole-text parse, then the largest brace block, then the
repair path. -/
def ejmFallback (t : List Char) : String :=
  if (jsonLoads (String.mk t)).isSome then String.mk t
  else
    match longestOf (bracketFindAll t) with
    | some b =>
      if (jsonLoads (String.mk b)).isSome then String.mk (pyStrip b)
      else ejmRepair t
    | none => ejmRepair t

/-- Model of `GuidelineProcessor.extract_json_from_markdown`: strip think
tags; try the longest fenced code block; then the whole text; then the
longest brace block; then the syntax repairs; finally fall back to the
text itself. -/
def extract_json_from_markdown (text : String) : String :=
  let t := removeThink text.data
  match longestOf (fencedFindAll t) with
  | some m =>
    if (jsonLoads (String.mk m)).isSome then String.mk (pyStrip m)
    else ejmFallback t
  | none => ejmFallback t


/-!
Model of `BaseAgent.extract_json_from_response` from `old/agents.py`.  The
single `re.search` uses an alternation: a fenced block whose lazy capture is
surrounded by greedy whitespace classes, or a greedy brace block.  The
search tries both alternatives at each position from the left, fenced
first.  The Python code then feeds `group(1) if group(1) else group(2)` to
`json.loads`; an empty first capture is falsy, and when the fenced
alternative matched, `group(2)` is `None`, so `json.loads(None)` raises a
`TypeError` that the `except json.JSONDecodeError` handler does not catch.
-/

/-- Result of one call of `extract_json_from_response`: either a returned
dictionary-or-empty-dict value, or an uncaught `TypeError`. -/
inductive ExtractOutcome where
  | ok (v : Json)
  | raisedTypeError

/-- Whether the call raised. -/
def ExtractOutcome.raised : ExtractOutcome → Bool
  | .ok _ => false
  | .raisedTypeError => true

/-- Leftmost match of the alternation of `extract_json_from_response`:
returns the two capture groups of the match, fenced capture first.  At a
position the fenced alternative is tried before the brace alternative; a
failed position advances the scan by one character. -/
def searchAgentsAux : Nat → List Char → Option (Option (List Char) × Option (List Char))
  | 0, _ => none
  | fuel + 1, cs =>
    match cs with
    | [] => none
    | c :: tl =>
      if startsWithL fenceTok cs then
        let r1 := cs.drop 3
        let r2 := if startsWithL jsonTok r1 then r1.drop 4 else r1
        match splitAtSub fenceTok (r2.dropWhile isPySpace) with
        | some (seg, _) =>
          some (some ((seg.reverse.dropWhile isPySpace).reverse), none)
        | none => searchAgentsAux fuel tl
      else if c == obr && tl.any (fun x => x == cbr) then
        some (none, some (obr :: takeThroughLastClose tl))
      else searchAgentsAux fuel tl

/-- Model of `BaseAgent.extract_json_from_response`: no match or a
`JSONDecodeError` yield the empty dict; an empty fenced capture routes the
unset second group into `json.loads`, raising `TypeError`. -/
def extract_json_from_response (response : String) : ExtractOutcome :=
  match searchAgentsAux (response.data.length + 1) response.data with
  | none => .ok (Json.obj [])
  | some (g1, g2) =>
    let chosen := match g1 with
      | some s => if s.isEmpty then g2 else some s
      | none => g2
    match chosen with
    | none => .raisedTypeError
    | some s =>
      match jsonLoads (String.mk s) with
      | some v => .ok v
      | none => .ok (Json.obj [])


/-!
Orchestration state machine of `old/agents.py`.  The modelled fields of
`AgentState` are the ones the scheduling behavior reads or writes:
`next_agent`, `current_cohort`, `pending_agents`, `pending_cohorts`, the
per-agent result dictionaries inside `results`, and `chat_history` (each
history entry is reduced to the agent tag and the cohort recorded in its
action text).  The `messages` list, timestamps and prompt plumbing carry no
scheduling information and are not modelled.
-/

/-- One proposed cohort analysis from the manager response: the modelled
keys are `selected_agent` and `name`; `rationale`, `description` and
`relevance` are only copied into log entries. -/
structure CohortAnalysis where
  selected_agent : Option String
  name : Option String
deriving DecidableEq

/-- One chat-history entry, reduced to the agent tag and the cohort that
the entry records as processed. -/
structure HistEntry where
  agent : String
  cohort : String
deriving DecidableEq

/-- The per-agent result dictionaries inside `state.results`, as
insertion-ordered association lists from cohort name to the analysis
payload (modelled opaquely as a string). -/
structure OldResults where
  drug_analyses : List (String × String)
  diagnosis_analyses : List (String × String)
deriving DecidableEq

/-- Modelled scheduling fields of `AgentState`. -/
structure OldState where
  next_agent : String
  current_cohort : String
  pending_agents : List String
  pending_cohorts : List String
  results : OldResults
  chat_history : List HistEntry
deriving DecidableEq

/-- Initial state built by `MultiAgentSystem.process_document`: the entry
point is the manager; the optional keys are absent, so the `.get` defaults
apply. -/
def initState : OldState :=
  { next_agent := "manager", current_cohort := "", pending_agents := [],
    pending_cohorts := [], results := { drug_analyses := [], diagnosis_analyses := [] },
    chat_history := [] }

/-- Selection loop of `ManagerAgent.process`: keep each analysis that has
both a `selected_agent` and a `name`, de-duplicated first-seen by the
colon-joined agent-and-cohort key. -/
def buildSelectionsAux : List CohortAnalysis → List String → List (String × String)
  | [], _ => []
  | a :: rest, seen =>
    match a.selected_agent, a.name with
    | some ag, some n =>
      let key := ag ++ ":" ++ n
      if key ∈ seen then buildSelectionsAux rest seen
      else (ag, n) :: buildSelectionsAux rest (key :: seen)
    | _, _ => buildSelectionsAux rest seen

/-- The ordered agent selections extracted from the proposed cohort
analyses. -/
def buildSelections (analyses : List CohortAnalysis) : List (String × String) :=
  buildSelectionsAux analyses []

/-- Input of one `ManagerAgent.process` call, as seen by the scheduling
logic: the LLM call failed, its answer had no extractable JSON (the empty
dict is falsy), or it parsed and the `proposed_cohort_analyses` key was a
non-empty list (`none` models a missing key, a non-list value or an empty
list, which all route to the end). -/
inductive MgrOutcome where
  | llmError
  | parseEmpty
  | parsed (proposed : Option (List CohortAnalysis))
deriving DecidableEq

/-- Model of `ManagerAgent.process`.  Failure paths return early without a
history entry; the parsed paths fall through to the history append, and a
non-empty selection list installs its head as the current task and the tail
as the two parallel pending lists. -/
def managerProcess (o : MgrOutcome) (s : OldState) : OldState :=
  match o with
  | .llmError => { s with next_agent := "end" }
  | .parseEmpty => { s with next_agent := "end" }
  | .parsed none =>
    { s with next_agent := "end",
             chat_history := s.chat_history ++ [⟨"manager", s.current_cohort⟩] }
  | .parsed (some analyses) =>
    match buildSelections analyses with
    | [] =>
      { s with next_agent := "end",
               chat_history := s.chat_history ++ [⟨"manager", s.current_cohort⟩] }
    | (a0, c0) :: rest =>
      { next_agent := a0, current_cohort := c0,
        pending_agents := rest.map Prod.fst,
        pending_cohorts := rest.map Prod.snd,
        results := s.results,
        chat_history := s.chat_history ++ [⟨"manager", c0⟩] }

/-- The two specialist node variants. -/
inductive AgentKind where
  | drug
  | diagnosis
deriving DecidableEq

/-- Routing tag of a specialist, as used by the conditional edges. -/
def kindName : AgentKind → String
  | .drug => "drug_agent"
  | .diagnosis => "diagnosis_agent"

/-- Input of one specialist `process` call: LLM failure, unparsable answer
(the empty dict is falsy), or a parsed analysis payload. -/
inductive StepOutcome where
  | llmError
  | parseEmpty
  | ok (payload : String)
deriving DecidableEq

/-- Python dictionary assignment on an insertion-ordered association
list. -/
def dictInsert (m : List (String × String)) (k v : String) : List (String × String) :=
  if m.any (fun p => p.1 == k) then
    m.map (fun p => if p.1 == k then (k, v) else p)
  else m ++ [(k, v)]

/-- Store a specialist result under the current cohort in the results
dictionary of its kind. -/
def updResults (k : AgentKind) (cohort payload : String) (r : OldResults) : OldResults :=
  match k with
  | .drug => { r with drug_analyses := dictInsert r.drug_analyses cohort payload }
  | .diagnosis =>
    { r with diagnosis_analyses := dictInsert r.diagnosis_analyses cohort payload }

/-- Model of `DrugAgent.process` and `DiagnosisAgent.process`, which are
identical in every modelled field except the results dictionary they write.
Failure paths return early: they set the next agent to the end tag and
leave every other modelled field untouched.  The success path stores the
result under the pre-pop current cohort, pops the heads of both pending
lists when both are non-empty (otherwise routes to the end and clears the
current cohort), and appends a history entry recording the processed
cohort. -/
def specialistProcess (k : AgentKind) (o : StepOutcome) (s : OldState) : OldState :=
  match o with
  | .llmError => { s with next_agent := "end" }
  | .parseEmpty => { s with next_agent := "end" }
  | .ok payload =>
    match s.pending_agents, s.pending_cohorts with
    | a :: pa, c :: pc =>
      { next_agent := a, current_cohort := c, pending_agents := pa,
        pending_cohorts := pc,
        results := updResults k s.current_cohort payload s.results,
        chat_history := s.chat_history ++ [⟨kindName k, s.current_cohort⟩] }
    | _, _ =>
      { next_agent := "end", current_cohort := "",
        pending_agents := s.pending_agents, pending_cohorts := s.pending_cohorts,
        results := updResults k s.current_cohort payload s.results,
        chat_history := s.chat_history ++ [⟨kindName k, s.current_cohort⟩] }

/-- Conditional-edge router of the compiled graph: the routing function
returns `state.next_agent` and the edge maps send the two specialist tags
to their nodes and the end tag to the end node. -/
def agentOf (a : String) : Option AgentKind :=
  if a = "drug_agent" then some .drug
  else if a = "diagnosis_agent" then some .diagnosis
  else none

/-- Iterated graph execution after the manager node: while the router
selects a specialist, run its step on the next supplied outcome; stop at
the end tag.  The outcome list bounds the number of steps; every theorem
supplies enough outcomes for its run. -/
def runOld : List StepOutcome → OldState → OldState
  | [], s => s
  | o :: rest, s =>
    match agentOf s.next_agent with
    | some k => runOld rest (specialistProcess k o s)
    | none => s

/-- Full prototype run from the initial state: one manager call, then the
specialist loop. -/
def oldRun (o : MgrOutcome) (outcomes : List StepOutcome) : OldState :=
  runOld outcomes (managerProcess o initState)

/-!
Knowledge-graph aggregation from
`MultiAgentSystem.extract_kg_and_cohort_analysis` in `old/agents.py`:
de-duplication of the concatenated per-cohort entity and relationship
lists, followed by integration into the knowledge graph that starts from
the manager entities and relations.  Entities and relationships are Python
dictionaries; the modelled keys are the ones the aggregation reads
(`id`, `concept_name`; `source_drug` or `source_condition`,
`target_entity`, `relationship_type`, `evidence`, `details`, `certainty`),
with `Option` marking a missing key.  Remaining attributes are carried
opaquely in `payload`.  Non-dictionary list elements, which the
`isinstance` guards skip, are outside the model.
-/

/-- An extracted entity dictionary. -/
structure Entity where
  id : Option String
  concept_name : Option String
  payload : String
deriving DecidableEq

/-- A raw per-domain relationship dictionary.  For drug relationships the
`src` field models the `source_drug` key and for condition relationships
the `source_condition` key; the two aggregation passes use the same code
shape on their respective key names. -/
structure RawRel where
  src : Option String
  tgt : Option String
  rtype : Option String
  evidence : Option String
  details : Option String
  certainty : Option String
deriving DecidableEq

/-- A knowledge-graph relation dictionary as built by the aggregation (or
as present in the manager relations). -/
structure KgRel where
  source : Option String
  target : Option String
  name : Option String
  evidence : String
  certainty : String
deriving DecidableEq

/-- The final knowledge graph: the `entities` and `relations` lists of the
`knowledge_graph` result field. -/
structure KG where
  entities : List Entity
  relations : List KgRel
deriving DecidableEq

/-- De-duplication loop over a concatenated entity list: keep a dictionary
that has a `concept_name` key only when that exact name string was not seen
before in this loop. -/
def dedupEntitiesAux : List Entity → List String → List Entity
  | [], _ => []
  | e :: rest, seen =>
    match e.concept_name with
    | some k =>
      if k ∈ seen then dedupEntitiesAux rest seen
      else e :: dedupEntitiesAux rest (k :: seen)
    | none => dedupEntitiesAux rest seen

/-- First-seen-wins de-duplication by `concept_name`, starting from an
empty seen set as the source does for each agent category. -/
def dedupEntities (l : List Entity) : List Entity := dedupEntitiesAux l []

/-- Insertion of one de-duplicated entity into the knowledge-graph entity
list: append when the entity has an `id` not present in the list;
otherwise append when it has a `concept_name` not present in the list. -/
def integrateEntity (kg : List Entity) (e : Entity) : List Entity :=
  match e.id with
  | some i =>
    if ∃ x ∈ kg, x.id = some i then
      match e.concept_name with
      | some k => if ∃ x ∈ kg, x.concept_name = some k then kg else kg ++ [e]
      | none => kg
    else kg ++ [e]
  | none =>
    match e.concept_name with
    | some k => if ∃ x ∈ kg, x.concept_name = some k then kg else kg ++ [e]
    | none => kg

/-- Fold of `integrateEntity` over a de-duplicated entity list. -/
def integrateEntities (kg : List Entity) (l : List Entity) : List Entity :=
  l.foldl integrateEntity kg

/-- De-duplication loop over a concatenated relationship list: keep a
dictionary that has both endpoint keys only when its pipe-joined
source, target and type key string was not seen before in this loop. -/
def dedupRelsAux : List RawRel → List String → List RawRel
  | [], _ => []
  | r :: rest, seen =>
    match r.src, r.tgt with
    | some s, some t =>
      let key := s ++ "|" ++ t ++ "|" ++ r.rtype.getD "unknown"
      if key ∈ seen then dedupRelsAux rest seen
      else r :: dedupRelsAux rest (key :: seen)
    | _, _ => dedupRelsAux rest seen

/-- First-seen-wins de-duplication of relationships. -/
def dedupRels (l : List RawRel) : List RawRel := dedupRelsAux l []

/-- Conversion of a raw relationship into the knowledge-graph form. -/
def toKgRel (r : RawRel) : KgRel :=
  { source := r.src, target := r.tgt,
    name := some (r.rtype.getD "unknown"),
    evidence := r.evidence.getD (r.details.getD ""),
    certainty := r.certainty.getD "unknown" }

/-- Insertion of one de-duplicated relationship into the knowledge-graph
relation list: append unless a relation with the same source, target and
name values is already present.  No node-existence check is performed. -/
def integrateRel (kg : List KgRel) (r : RawRel) : List KgRel :=
  if ∃ x ∈ kg, x.source = r.src ∧ x.target = r.tgt ∧ x.name = r.rtype then kg
  else kg ++ [toKgRel r]

/-- Fold of `integrateRel` over a de-duplicated relationship list. -/
def integrateRels (kg : List KgRel) (l : List RawRel) : List KgRel :=
  l.foldl integrateRel kg

/-- The aggregation pipeline of `extract_kg_and_cohort_analysis`: the
knowledge graph starts from the manager entities and relations, then the
drug pass and the condition pass each integrate their de-duplicated lists.
The empty-list guards of the source skip a pass entirely, which equals
integrating an empty list. -/
def aggregateKG (managerEnts : List Entity) (managerRels : List KgRel)
    (drugEnts : List Entity) (drugRels : List RawRel)
    (condEnts : List Entity) (condRels : List RawRel) : KG :=
  let e1 := integrateEntities managerEnts (dedupEntities drugEnts)
  let r1 := integrateRels managerRels (dedupRels drugRels)
  let e2 := integrateEntities e1 (dedupEntities condEnts)
  let r2 := integrateRels r1 (dedupRels condRels)
  { entities := e2, relations := r2 }

/-- Concept names present in an entity list. -/
def conceptsOf (l : List Entity) : List String :=
  l.filterMap (fun e => e.concept_name)

/-!
Cohort-extraction graph of `src/llm_source_to_kg/graph/cohort_graph/`:
the conditional validate/retry loop.  The modelled fields of
`CohortGraphState` are the ones the loop reads or writes: `cohorts` (the
attribute-object list read by `validate_cohort`), `validation_results`,
`cohort_result` (the dictionary list read by `route_after_validation`), and
`can_retry`.
-/

/-- One entry of `cohort_result` as read by `route_after_validation`
through dictionary `.get` calls with defaults; `Option` marks a missing
key. -/
structure CREntry where
  is_valid : Option Bool
  retries : Option Nat
deriving DecidableEq

/-- Maximum retry count (`RETRY_COUNT` in `cohort_graph/utils.py`). -/
def RETRY_COUNT : Nat := 3

/-- Model of `route_after_validation`: route to the retry node when some
cohort entry is invalid and some invalid entry has a retry count below the
bound; otherwise return the final cohorts. -/
def route_after_validation (cohort_result : List CREntry) : String :=
  let invalid_exists := cohort_result.any (fun c => !(c.is_valid.getD false))
  let retry_needed := cohort_result.any
    (fun c => !(c.is_valid.getD false) && decide (c.retries.getD 0 < RETRY_COUNT))
  if invalid_exists && retry_needed then "retry_extract_cohort"
  else "return_final_cohorts"

/-- A cohort attribute-object as validated by `validate_cohort`.  The
class itself is not in the repository; the fields are the attributes the
validation reads.  A `none` in `id`, `name` or `criteria` models the
attribute holding `None`; `criteria` additionally records whether a
present value is a dictionary; `parent_cohort_id` is `none` when the
attribute is absent (the `hasattr` test). -/
structure Cohort where
  id : Option String
  name : Option String
  criteria : Option Bool
  population : Int
  parent_cohort_id : Option String
deriving DecidableEq

/-- One entry of `validation_results`. -/
structure VResult where
  cohort_id : Option String
  is_valid : Bool
  errors : List String
  can_retry : Bool
deriving DecidableEq

/-- Validation rules of `validate_cohort` for one cohort: required fields,
the criteria dictionary check, the population range check (the source
compares even a missing population, which would raise; the model only
performs the comparison on the integer value) and the parent-cohort
lookup. -/
def validateOne (cohorts : List Cohort) (c : Cohort) : VResult :=
  let missing :=
    (if c.id.isNone then ["Missing required field: id"] else []) ++
    (if c.name.isNone then ["Missing required field: name"] else []) ++
    (if c.criteria.isNone then ["Missing required field: criteria"] else [])
  let typeErrs :=
    if c.criteria.getD false then [] else ["Criteria must be a dictionary"]
  let rangeErrs :=
    if c.population < 0 then ["Population cannot be negative"] else []
  let parentErrs :=
    match c.parent_cohort_id with
    | some pid =>
      if ∃ x ∈ cohorts, x.id = some pid then []
      else ["Parent cohort " ++ pid ++ " not found"]
    | none => []
  let errs := missing ++ typeErrs ++ rangeErrs ++ parentErrs
  { cohort_id := c.id, is_valid := errs.isEmpty, errors := errs, can_retry := true }

/-- Modelled fields of `CohortGraphState`. -/
structure CGState where
  cohorts : List Cohort
  validation_results : List VResult
  cohort_result : List CREntry
  can_retry : Bool
deriving DecidableEq

/-- Model of `validate_cohort`: rebuild `validation_results` from
`cohorts` and recompute `can_retry`; `cohort_result` is not touched. -/
def validate_cohort (s : CGState) : CGState :=
  let vrs := s.cohorts.map (validateOne s.cohorts)
  { s with validation_results := vrs,
           can_retry := vrs.any (fun r => !r.is_valid && r.can_retry) }

/-- Inner loop of `retry_extract_cohort` over the snapshot of invalid
results: a successful LLM call removes the cohort with that id from
`cohorts`; a raised call marks that validation entry non-retryable.  The
oracle gives the success of each LLM call by cohort id. -/
def retryFold (llmOk : Option String → Bool) :
    List VResult → CGState → CGState
  | [], s => s
  | r :: rest, s =>
    if llmOk r.cohort_id then
      retryFold llmOk rest
        { s with cohorts := s.cohorts.filter (fun c => !(c.id == r.cohort_id)) }
    else
      let vrs := s.validation_results.map
        (fun v => if v == r then { v with can_retry := false } else v)
      retryFold llmOk rest { s with validation_results := vrs }

/-- Model of `retry_extract_cohort`: collect the invalid retryable
validation results; when none exist, return the state unchanged; otherwise
run the retry loop.  Neither branch touches `cohort_result` or any retry
counter. -/
def retry_extract_cohort (llmOk : Option String → Bool) (s : CGState) : CGState :=
  let invalid := s.validation_results.filter (fun r => !r.is_valid && r.can_retry)
  if invalid.isEmpty then s else retryFold llmOk invalid s

/-- Modelled from the spec: the `return_final_cohorts` node is imported by
the orchestrator but its file is absent from the repository; the
orchestrator docstring says the node filters and returns only the valid
cohorts. -/
def return_final_cohorts (s : CGState) : List CREntry :=
  s.cohort_result.filter (fun c => c.is_valid.getD false)

/-- The compiled conditional loop of the cohort graph, entered at the
validation node: validate, route, and either retry and re-validate or
return the final cohorts.  The fuel bounds the number of graph steps;
`none` means the loop was still running when the fuel ran out. -/
def cohortLoop (llmOk : Option String → Bool) : Nat → CGState → Option (List CREntry)
  | 0, _ => none
  | fuel + 1, s =>
    let s1 := validate_cohort s
    if route_after_validation s1.cohort_result = "retry_extract_cohort" then
      cohortLoop llmOk fuel (retry_extract_cohort llmOk s1)
    else some (return_final_cohorts s1)

/-!
Document loading.  `load_document` in `langgraph_v1/src/graph/workflow.py`
flattens a dictionary-valued `contents` field into markdown section blocks
before building the document text; the old prototype instead passes
`str(contents)` to `process_document` (`old/agents.py`), so a
dictionary reaches its manager prompt as a Python repr.
-/

/-- The `contents` field of a loaded guideline document: a plain string or
a section-to-text map (insertion-ordered, as a Python dict is). -/
inductive DocContents where
  | str (s : String)
  | dict (sections : List (String × String))

/-- Section flattening loop of `load_document`: start from the empty
string and append one markdown block per section, in map order. -/
def flattenContents (sections : List (String × String)) : String :=
  sections.foldl
    (fun acc p => acc ++ ("## " ++ p.1 ++ "\n\n" ++ p.2 ++ "\n\n")) ""

/-- Contents as a single string after the dictionary branch of
`load_document`. -/
def contentsToText : DocContents → String
  | .str s => s
  | .dict m => flattenContents m

/-- The `document_content` built by `load_document` and consumed by every
later LLM node of that workflow. -/
def load_document_content (title : String) (contents : DocContents) : String :=
  "# " ++ title ++ "\n\n" ++ contentsToText contents

/-- Reference flattening as stated by the spec: the concatenation of one
markdown block per section in map order. -/
def specFlatten : List (String × String) → String
  | [] => ""
  | p :: rest => "## " ++ p.1 ++ "\n\n" ++ p.2 ++ "\n\n" ++ specFlatten rest

/-- Join a list of strings with a separator. -/
def joinWith (sep : String) : List String → String
  | [] => ""
  | [x] => x
  | x :: xs => x ++ sep ++ joinWith sep xs

/-- Python repr of a string-to-string dict whose keys and values need no
escaping: single-quoted pairs inside braces.  Only used on plain
section names and texts. -/
def dictRepr (m : List (String × String)) : String :=
  "\x7b" ++
    joinWith ", "
      (m.map (fun p =>
        String.singleton sqc ++ p.1 ++ String.singleton sqc ++ ": " ++
          String.singleton sqc ++ p.2 ++ String.singleton sqc)) ++
    "\x7d"

/-- Model of Python `str(contents)` as applied at `old/agents.py` line 686:
a string passes through and a dictionary becomes its repr. -/
def pyStrOfContents : DocContents → String
  | .str s => s
  | .dict m => dictRepr m

/-- The contents string the old-prototype manager prompt receives for a
loaded document (`extract_kg_and_cohort_analysis` stringifies the raw
contents before `process_document` stores it in the state). -/
def old_planner_contents (contents : DocContents) : String :=
  pyStrOfContents contents

/-!
Theorems.  Each claim of the specification gets one theorem below, preceded
by helper lemmas and concrete evaluation facts used in witnesses.
-/

/-- A state on which the cohort-graph loop makes no progress: no cohort
objects to re-validate, and one invalid entry in `cohort_result`.  The
entry has no `retries` key, so its retry count reads as zero forever. -/
def stuckState : CGState :=
  { cohorts := [], validation_results := [],
    cohort_result := [{ is_valid := some false, retries := none }],
    can_retry := false }

lemma cohortLoop_stuck_step (llmOk : Option String → Bool) (n : Nat) :
    cohortLoop llmOk (n + 1) stuckState = cohortLoop llmOk n stuckState := rfl

/-- C1: the claim states that every task keeps `retries` at most
`MAX_RETRIES` and that a task failing validation `MAX_RETRIES + 1` times
transitions to `Failed`, so the validate/retry loop terminates.  In the
code nothing ever increments a retry counter and nothing marks a cohort
failed: from a state with one invalid result entry, `validate_cohort` and
`retry_extract_cohort` leave `cohort_result` untouched, and
`route_after_validation` selects the retry edge at every pass, so the loop
runs forever no matter how much fuel it gets and which LLM outcomes
occur. -/
theorem retry_loop_never_terminates (llmOk : Option String → Bool) (fuel : Nat) :
    cohortLoop llmOk fuel stuckState = none := by
  induction fuel with
  | zero => rfl
  | succ n ih => rw [cohortLoop_stuck_step]; exact ih

/-- Sanity: on the stuck state the router does choose the retry edge. -/
theorem route_retries_on_stuck :
    route_after_validation stuckState.cohort_result = "retry_extract_cohort" := by
  decide

/-- C10: the claim states that `extract_json_from_response` returns for
every input, with the empty dict as its failure signal.  On a response that
is just an empty fenced block the regex matches with an empty first group;
the empty string is falsy, so the unset second group (`None`) reaches
`json.loads`, which raises a `TypeError` that the handler for
`json.JSONDecodeError` does not catch. -/
theorem extract_json_raises_on_empty_fence :
    (extract_json_from_response "``````").raised = true := by decide

/-- A drug relationship whose endpoints were never extracted as
entities. -/
def danglingRel : RawRel :=
  { src := some "A", tgt := some "B", rtype := some "treats",
    evidence := none, details := none, certainty := none }

/-- Aggregation run with no entities anywhere and one drug
relationship. -/
def danglingKG : KG := aggregateKG [] [] [] [danglingRel] [] []

/-- C4 counterexample: the claim states that after aggregation every edge
endpoint resolves to a node and that a relationship with no matching node
is dropped.  Aggregating one relationship whose endpoints were never
extracted yields a graph with no nodes and one edge, so the edge dangles
and was not dropped. -/
theorem dangling_edge_not_dropped :
    danglingKG.entities = [] ∧ danglingKG.relations ≠ [] ∧
      ¬ (∀ r ∈ danglingKG.relations,
          (∃ e ∈ danglingKG.entities, e.concept_name = r.source) ∧
          (∃ e ∈ danglingKG.entities, e.concept_name = r.target)) := by
  decide

/-- C4 amended: the aggregation de-duplicates relationships and converts
them into knowledge-graph edges, but it never consults the node set: the
relations of the output are the same for any entity inputs, so
relationships with unresolvable endpoints are inserted, not dropped. -/
theorem relations_ignore_entities (mE dE cE mE2 dE2 cE2 : List Entity)
    (mR : List KgRel) (dR cR : List RawRel) :
    (aggregateKG mE mR dE dR cE cR).relations
      = (aggregateKG mE2 mR dE2 dR cE2 cR).relations := rfl

lemma flatten_foldl (l : List (String × String)) :
    ∀ acc : String,
      l.foldl (fun acc p => acc ++ ("## " ++ p.1 ++ "\n\n" ++ p.2 ++ "\n\n")) acc
        = acc ++ specFlatten l := by
  induction l with
  | nil => intro acc; simp [specFlatten]
  | cons p rest ih =>
    intro acc
    simp only [List.foldl_cons, specFlatten, ih]
    simp [String.append_assoc]

/-- C8 amended: in the `langgraph_v1` loader a dictionary-valued contents
field is flattened to the concatenation of one markdown section block per
entry, in map order, inside the document content every later LLM node
consumes; the old prototype instead passes the Python repr of the
dictionary to its planner (see the counterexample). -/
theorem load_document_flattens (title : String) (sections : List (String × String)) :
    load_document_content title (.dict sections)
      = "# " ++ title ++ "\n\n" ++ specFlatten sections := by
  simp [load_document_content, contentsToText, flattenContents, flatten_foldl]

/-- C8 counterexample: the claim states that a map-valued contents field is
flattened before any planner call sees the document.  The old prototype
stringifies the dictionary instead, so its planner receives the Python
repr, not the flattened markdown. -/
theorem old_planner_sees_repr :
    flattenContents [("a", "b")] = "## a\n\nb\n\n" ∧
      old_planner_contents (.dict [("a", "b")]) ≠ "## a\n\nb\n\n" := by
  constructor
  · rfl
  · decide

/-- C3 counterexample: the claim states that the whole-string strict parse
is tried first, so any raw string that is itself valid JSON is returned
unchanged.  A valid JSON object whose string value contains a fenced block
parses as a whole, yet the normalizer returns the fenced content
instead. -/
theorem fenced_block_beats_whole_string :
    (jsonLoads "\x7b\"a\": \"```\x7b\x7d```\"\x7d").isSome = true ∧
      extract_json_from_markdown "\x7b\"a\": \"```\x7b\x7d```\"\x7d" = "\x7b\x7d" ∧
      ("\x7b\x7d" : String) ≠ "\x7b\"a\": \"```\x7b\x7d```\"\x7d" := by
  decide

/-- C3 amended: the strategies run in the order fenced code block first,
then whole string, then balanced-brace substring (then the syntax repairs
and the raw-text fallback encoded in `ejmRepair`): a parsing fenced
candidate always wins; with no parsing fenced candidate a raw string that
is valid JSON is returned unchanged; with neither, a parsing brace
candidate is returned stripped. -/
theorem normalizer_strategy_order (text : String) :
    (∀ m, longestOf (fencedFindAll (removeThink text.data)) = some m →
        (jsonLoads (String.mk m)).isSome = true →
        extract_json_from_markdown text = String.mk (pyStrip m)) ∧
    ((∀ m, longestOf (fencedFindAll (removeThink text.data)) = some m →
        (jsonLoads (String.mk m)).isSome = false) →
      (jsonLoads (String.mk (removeThink text.data))).isSome = true →
      extract_json_from_markdown text = String.mk (removeThink text.data)) ∧
    ((∀ m, longestOf (fencedFindAll (removeThink text.data)) = some m →
        (jsonLoads (String.mk m)).isSome = false) →
      (jsonLoads (String.mk (removeThink text.data))).isSome = false →
      ∀ b, longestOf (bracketFindAll (removeThink text.data)) = some b →
        (jsonLoads (String.mk b)).isSome = true →
        extract_json_from_markdown text = String.mk (pyStrip b)) := by
  refine ⟨?_, ?_, ?_⟩
  · intro m hm hj
    simp [extract_json_from_markdown, hm, hj]
  · intro hno hwhole
    cases hc : longestOf (fencedFindAll (removeThink text.data)) with
    | none => simp [extract_json_from_markdown, hc, ejmFallback, hwhole]
    | some m =>
      simp [extract_json_from_markdown, hc, hno m hc, ejmFallback, hwhole]
  · intro hno hwhole b hb hbj
    cases hc : longestOf (fencedFindAll (removeThink text.data)) with
    | none => simp [extract_json_from_markdown, hc, ejmFallback, hwhole, hb, hbj]
    | some m =>
      simp [extract_json_from_markdown, hc, hno m hc, ejmFallback, hwhole, hb, hbj]

/-- C3 witness: the order theorem applied to concrete inputs exercising
the fenced path and the whole-string path. -/
theorem normalizer_strategy_order_witness :
    extract_json_from_markdown "pre ```json\n\x7b\"a\": 1\x7d\n``` post" = "\x7b\"a\": 1\x7d" ∧
      extract_json_from_markdown "[1, 2]" = "[1, 2]" := by
  constructor
  · have h := (normalizer_strategy_order "pre ```json\n\x7b\"a\": 1\x7d\n``` post").1
      ("\x7b\"a\": 1\x7d\n").data (by decide) (by decide)
    rw [h]; decide
  · have hnone : longestOf (fencedFindAll (removeThink ("[1, 2]" : String).data)) = none := by
      decide
    have h := (normalizer_strategy_order "[1, 2]").2.1
      (by intro m hm; rw [hnone] at hm; exact Option.noConfusion hm) (by decide)
    rw [h]; decide

lemma dedup_concepts_not_seen :
    ∀ (l : List Entity) (seen : List String) (k : String),
      k ∈ conceptsOf (dedupEntitiesAux l seen) → k ∉ seen := by
  intro l
  induction l with
  | nil => intro seen k hk; simp [dedupEntitiesAux, conceptsOf] at hk
  | cons e rest ih =>
    intro seen k hk
    cases hc : e.concept_name with
    | none =>
      simp only [dedupEntitiesAux, hc] at hk
      exact ih seen k hk
    | some k0 =>
      simp only [dedupEntitiesAux, hc] at hk
      by_cases h0 : k0 ∈ seen
      · rw [if_pos h0] at hk
        exact ih seen k hk
      · rw [if_neg h0] at hk
        simp only [conceptsOf, List.filterMap_cons, hc] at hk
        rcases List.mem_cons.mp hk with h | h
        · subst h; exact h0
        · intro hks
          exact ih (k0 :: seen) k h (List.mem_cons_of_mem _ hks)

lemma dedup_concepts_nodup :
    ∀ (l : List Entity) (seen : List String),
      (conceptsOf (dedupEntitiesAux l seen)).Nodup := by
  intro l
  induction l with
  | nil => intro seen; simp [dedupEntitiesAux, conceptsOf]
  | cons e rest ih =>
    intro seen
    cases hc : e.concept_name with
    | none => simp only [dedupEntitiesAux, hc]; exact ih seen
    | some k0 =>
      simp only [dedupEntitiesAux, hc]
      by_cases h0 : k0 ∈ seen
      · rw [if_pos h0]; exact ih seen
      · rw [if_neg h0]
        simp only [conceptsOf, List.filterMap_cons, hc]
        refine List.nodup_cons.mpr ⟨?_, ih (k0 :: seen)⟩
        intro hmem
        exact dedup_concepts_not_seen rest (k0 :: seen) k0 hmem (List.mem_cons_self _ _)

lemma mem_conceptsOf {k : String} {kg : List Entity} :
    k ∈ conceptsOf kg ↔ ∃ x ∈ kg, x.concept_name = some k := by
  simp [conceptsOf, List.mem_filterMap]

lemma integrate_noId_step (kg : List Entity) (e : Entity) (he : e.id = none)
    (h : (conceptsOf kg).Nodup) : (conceptsOf (integrateEntity kg e)).Nodup := by
  cases hc : e.concept_name with
  | none =>
    have hrw : integrateEntity kg e = kg := by simp [integrateEntity, he, hc]
    rw [hrw]; exact h
  | some k =>
    by_cases hk : ∃ x ∈ kg, x.concept_name = some k
    · have hrw : integrateEntity kg e = kg := by simp [integrateEntity, he, hc, hk]
      rw [hrw]; exact h
    · have hrw : integrateEntity kg e = kg ++ [e] := by simp [integrateEntity, he, hc, hk]
      rw [hrw]
      simp only [conceptsOf, List.filterMap_append, List.filterMap_cons, hc,
        List.filterMap_nil]
      refine List.Nodup.append h (by simp) ?_
      intro a ha hb
      simp only [List.mem_cons, List.not_mem_nil, or_false] at hb
      subst hb
      exact hk (mem_conceptsOf.mp ha)

/-- C5 amended, supporting lemma: when no incoming entity carries an id,
the knowledge-graph integration preserves uniqueness of concept names. -/
lemma integrate_noId_nodup :
    ∀ (l : List Entity) (kg : List Entity), (∀ e ∈ l, e.id = none) →
      (conceptsOf kg).Nodup → (conceptsOf (integrateEntities kg l)).Nodup := by
  intro l
  induction l with
  | nil => intro kg _ h; exact h
  | cons e rest ih =>
    intro kg hid h
    rw [integrateEntities, List.foldl_cons]
    exact ih (integrateEntity kg e)
      (fun x hx => hid x (List.mem_cons_of_mem _ hx))
      (integrate_noId_step kg e (hid e (List.mem_cons_self _ _)) h)

/-- Drug-cohort Metformin entity with an id and one attribute set. -/
def metfDrug : Entity :=
  { id := some "d1", concept_name := some "Metformin", payload := "dose 500mg" }

/-- Diagnosis-cohort Metformin entity with a different id and different
attributes. -/
def metfCond : Entity :=
  { id := some "c1", concept_name := some "Metformin", payload := "dose 850mg" }

/-- C5 counterexample: the claim states that a node is inserted only if its
concept name was not seen earlier in the run, so two cohorts extracting the
same concept name yield exactly one node.  A drug cohort and a diagnosis
cohort both extracting Metformin under different ids yield two nodes: the
id branch of the insertion check fires before the concept-name branch. -/
theorem duplicate_concept_nodes :
    (aggregateKG [] [] [metfDrug] [] [metfCond] []).entities = [metfDrug, metfCond] ∧
      ¬ ((aggregateKG [] [] [metfDrug] [] [metfCond] []).entities.filter
          (fun e => e.concept_name == some "Metformin")).length = 1 := by
  decide

/-- C5 amended: de-duplication is first-seen-wins on the exact concept name
within each agent category (the de-duplicated list never repeats a concept
name), and for entities without ids the insertion into the graph also keys
on concept name, preserving uniqueness; an entity carrying a fresh id is
inserted even when its concept name already has a node, so uniqueness can
fail across categories (see the counterexample). -/
theorem dedup_first_seen_wins :
    (∀ l : List Entity, (conceptsOf (dedupEntities l)).Nodup) ∧
      (∀ (kg l : List Entity), (∀ e ∈ l, e.id = none) → (conceptsOf kg).Nodup →
        (conceptsOf (integrateEntities kg l)).Nodup) := by
  constructor
  · intro l; exact dedup_concepts_nodup l []
  · intro kg l hid h; exact integrate_noId_nodup l kg hid h

/-- C5 witness: the amended theorem at concrete inputs, two same-category
Metformin entities without ids collapsing to one concept. -/
theorem dedup_first_seen_wins_witness :
    (conceptsOf (dedupEntities
      [{ id := none, concept_name := some "Metformin", payload := "a" },
       { id := none, concept_name := some "Metformin", payload := "b" }])).Nodup ∧
    (conceptsOf (integrateEntities []
      [{ id := none, concept_name := some "Metformin", payload := "a" },
       { id := none, concept_name := some "Metformin", payload := "b" }])).Nodup := by
  constructor
  · exact dedup_first_seen_wins.1 _
  · exact dedup_first_seen_wins.2 [] _ (by decide) (by simp [conceptsOf])

lemma dedupEntitiesAux_idem :
    ∀ (l : List Entity) (seen : List String),
      dedupEntitiesAux (dedupEntitiesAux l seen) seen = dedupEntitiesAux l seen := by
  intro l
  induction l with
  | nil => intro seen; rfl
  | cons e rest ih =>
    intro seen
    cases hc : e.concept_name with
    | none => simp only [dedupEntitiesAux, hc]; exact ih seen
    | some k0 =>
      simp only [dedupEntitiesAux, hc]
      by_cases h0 : k0 ∈ seen
      · rw [if_pos h0]; exact ih seen
      · rw [if_neg h0]
        simp only [dedupEntitiesAux, hc]
        rw [if_neg h0]
        rw [ih (k0 :: seen)]

lemma dedupRelsAux_idem :
    ∀ (l : List RawRel) (seen : List String),
      dedupRelsAux (dedupRelsAux l seen) seen = dedupRelsAux l seen := by
  intro l
  induction l with
  | nil => intro seen; rfl
  | cons r rest ih =>
    intro seen
    cases hs : r.src with
    | none => simp only [dedupRelsAux, hs]; exact ih seen
    | some s =>
      cases ht : r.tgt with
      | none => simp only [dedupRelsAux, hs, ht]; exact ih seen
      | some t =>
        simp only [dedupRelsAux, hs, ht]
        by_cases h0 : s ++ "|" ++ t ++ "|" ++ r.rtype.getD "unknown" ∈ seen
        · rw [if_pos h0]; exact ih seen
        · rw [if_neg h0]
          simp only [dedupRelsAux, hs, ht]
          rw [if_neg h0]
          rw [ih _]

/-- C7: aggregation is a pure function of its inputs — the seen sets and
the result lists are created afresh on every call, so two runs on the same
extraction results give the same knowledge graph — and the de-duplication
passes are idempotent, so repeating them accumulates nothing. -/
theorem aggregation_deterministic :
    (∀ (mE dE cE : List Entity) (mR : List KgRel) (dR cR : List RawRel),
        aggregateKG mE mR dE dR cE cR = aggregateKG mE mR dE dR cE cR) ∧
      (∀ l : List Entity, dedupEntities (dedupEntities l) = dedupEntities l) ∧
      (∀ l : List RawRel, dedupRels (dedupRels l) = dedupRels l) := by
  refine ⟨fun _ _ _ _ _ _ => rfl, ?_, ?_⟩
  · intro l; exact dedupEntitiesAux_idem l []
  · intro l; exact dedupRelsAux_idem l []

lemma runOld_at_end (l : List StepOutcome) (s : OldState)
    (h : agentOf s.next_agent = none) : runOld l s = s := by
  cases l with
  | nil => rfl
  | cons o rest => simp [runOld, h]

/-- C2 amended: a per-cohort failure raises no exception — the parse
returns the empty dict — but the failing step routes the graph to the end
tag with every other scheduling field untouched, so the run halts: the
pending cohorts are never dispatched and no failed entry is recorded. -/
theorem failure_halts_run (s : OldState) (o : StepOutcome)
    (rest : List StepOutcome)
    (ho : o = .llmError ∨ o = .parseEmpty)
    (hn : s.next_agent = "drug_agent" ∨ s.next_agent = "diagnosis_agent") :
    runOld (o :: rest) s = { s with next_agent := "end" } := by
  have hstep : ∀ k : AgentKind, specialistProcess k o s = { s with next_agent := "end" } := by
    intro k
    rcases ho with h | h <;> subst h <;> rfl
  have hend : agentOf ({ s with next_agent := "end" } : OldState).next_agent = none := by
    rfl
  rcases hn with h | h <;>
    simp [runOld, agentOf, h, hstep, runOld_at_end _ _ hend]

/-- C2 amended witness: a drug step failing on a state with one queued
cohort freezes the state and routes to the end. -/
theorem failure_halts_run_witness :
    runOld [StepOutcome.parseEmpty]
        { next_agent := "drug_agent", current_cohort := "c1",
          pending_agents := ["drug_agent"], pending_cohorts := ["c2"],
          results := { drug_analyses := [], diagnosis_analyses := [] },
          chat_history := [] }
      = { next_agent := "end", current_cohort := "c1",
          pending_agents := ["drug_agent"], pending_cohorts := ["c2"],
          results := { drug_analyses := [], diagnosis_analyses := [] },
          chat_history := [] } := by
  have h := failure_halts_run
    { next_agent := "drug_agent", current_cohort := "c1",
      pending_agents := ["drug_agent"], pending_cohorts := ["c2"],
      results := { drug_analyses := [], diagnosis_analyses := [] },
      chat_history := [] }
    StepOutcome.parseEmpty [] (Or.inr rfl) (Or.inl rfl)
  exact h

/-- Planner output used in the C2 counterexample: two drug cohorts. -/
def c2Analyses : List CohortAnalysis :=
  [{ selected_agent := some "drug_agent", name := some "cohort one" },
   { selected_agent := some "drug_agent", name := some "cohort two" }]

/-- C2 counterexample run: the first cohort's agent returns unparsable
text, the second would have succeeded. -/
def c2Final : OldState :=
  oldRun (.parsed (some c2Analyses)) [StepOutcome.parseEmpty, StepOutcome.ok "late"]

/-- C2 counterexample: the claim states that after one cohort fails, every
remaining queued cohort is still dispatched and the final artifact records
the failure.  In the run the second cohort stays queued forever, the
history shows no specialist step, and no result of any kind is stored for
either cohort. -/
theorem failed_cohort_stops_run :
    c2Final.pending_cohorts = ["cohort two"] ∧
      c2Final.chat_history = [{ agent := "manager", cohort := "cohort one" }] ∧
      c2Final.results.drug_analyses = [] ∧
      c2Final.results.diagnosis_analyses = [] := by
  decide

lemma kindName_agentOf {a : String} {k : AgentKind} (h : agentOf a = some k) :
    kindName k = a := by
  unfold agentOf at h
  split_ifs at h with h1 h2
  · injection h with h2; subst h2; exact h1.symm
  · injection h with h3; subst h3; exact h2.symm

/-- History entries of a selection list. -/
def selHist (l : List (String × String)) : List HistEntry :=
  l.map (fun p => { agent := p.1, cohort := p.2 })

/-- Cohort of the first selection, or empty when there is none (the
cohort the manager history entry records). -/
def headCohort : List (String × String) → String
  | [] => ""
  | p :: _ => p.2

lemma runOld_all_ok :
    ∀ (rest : List (String × String)) (a0 c0 : String) (ps : List String)
      (res : OldResults) (hist : List HistEntry) (k0 : AgentKind),
      agentOf a0 = some k0 →
      (∀ p ∈ rest, (agentOf p.1).isSome = true) →
      ps.length = rest.length + 1 →
      (runOld (ps.map StepOutcome.ok)
          { next_agent := a0, current_cohort := c0,
            pending_agents := rest.map Prod.fst,
            pending_cohorts := rest.map Prod.snd,
            results := res, chat_history := hist }).chat_history
          = hist ++ { agent := a0, cohort := c0 } :: selHist rest ∧
        (runOld (ps.map StepOutcome.ok)
          { next_agent := a0, current_cohort := c0,
            pending_agents := rest.map Prod.fst,
            pending_cohorts := rest.map Prod.snd,
            results := res, chat_history := hist }).next_agent = "end" ∧
        (runOld (ps.map StepOutcome.ok)
          { next_agent := a0, current_cohort := c0,
            pending_agents := rest.map Prod.fst,
            pending_cohorts := rest.map Prod.snd,
            results := res, chat_history := hist }).pending_agents = [] ∧
        (runOld (ps.map StepOutcome.ok)
          { next_agent := a0, current_cohort := c0,
            pending_agents := rest.map Prod.fst,
            pending_cohorts := rest.map Prod.snd,
            results := res, chat_history := hist }).pending_cohorts = [] := by
  intro rest
  induction rest with
  | nil =>
    intro a0 c0 ps res hist k0 hk0 _ hlen
    match ps, hlen with
    | [p], _ =>
      simp only [List.map_cons, List.map_nil, runOld, hk0, specialistProcess]
      simp [selHist, kindName_agentOf hk0]
  | cons q rest ih =>
    intro a0 c0 ps res hist k0 hk0 hall hlen
    match ps, hlen with
    | p :: ps2, hlen =>
      have hq : (agentOf q.1).isSome = true := hall q (List.mem_cons_self _ _)
      obtain ⟨k1, hk1⟩ := Option.isSome_iff_exists.mp hq
      have htail : ∀ r ∈ rest, (agentOf r.1).isSome = true :=
        fun r hr => hall r (List.mem_cons_of_mem _ hr)
      have hlen2 : ps2.length = rest.length + 1 := by
        simpa using hlen
      have hstep :
          runOld ((p :: ps2).map StepOutcome.ok)
            { next_agent := a0, current_cohort := c0,
              pending_agents := (q :: rest).map Prod.fst,
              pending_cohorts := (q :: rest).map Prod.snd,
              results := res, chat_history := hist }
          = runOld (ps2.map StepOutcome.ok)
            { next_agent := q.1, current_cohort := q.2,
              pending_agents := rest.map Prod.fst,
              pending_cohorts := rest.map Prod.snd,
              results := updResults k0 c0 p res,
              chat_history := hist ++ [{ agent := kindName k0, cohort := c0 }] } := by
        simp only [List.map_cons, runOld, hk0, specialistProcess]
      rw [hstep]
      have hrec := ih q.1 q.2 ps2 (updResults k0 c0 p res)
        (hist ++ [{ agent := kindName k0, cohort := c0 }]) k1 hk1 htail hlen2
      refine ⟨?_, hrec.2.1, hrec.2.2.1, hrec.2.2.2⟩
      rw [hrec.1, kindName_agentOf hk0]
      simp [selHist]

/-- C6: the scheduler dispatches one cohort task at a time, in the order
the planner proposed: when every selected agent routes to a specialist and
each step succeeds, the run processes exactly the selection list in order
(the chat history records the manager step followed by one entry per
selection, in selection order), ends at the end tag, and drains both
pending lists — only then does `extract_kg_and_cohort_analysis` aggregate
the results of the completed run.  Retries do not exist in this prototype
(a failure ends the run, see the C2 theorems), so a task's retries
trivially finish before the next task starts. -/
theorem scheduler_dispatch_order (analyses : List CohortAnalysis) (ps : List String)
    (hall : ∀ p ∈ buildSelections analyses, (agentOf p.1).isSome = true)
    (hlen : ps.length = (buildSelections analyses).length) :
    (oldRun (.parsed (some analyses)) (ps.map StepOutcome.ok)).chat_history
        = { agent := "manager", cohort := headCohort (buildSelections analyses) }
            :: selHist (buildSelections analyses) ∧
      (oldRun (.parsed (some analyses)) (ps.map StepOutcome.ok)).next_agent = "end" ∧
      (oldRun (.parsed (some analyses)) (ps.map StepOutcome.ok)).pending_agents = [] ∧
      (oldRun (.parsed (some analyses)) (ps.map StepOutcome.ok)).pending_cohorts = [] := by
  unfold oldRun
  cases hsel : buildSelections analyses with
  | nil =>
    have hps : ps = [] := List.length_eq_zero.mp (by simpa [hsel] using hlen)
    subst hps
    simp [managerProcess, hsel, initState, runOld, headCohort, selHist]
  | cons q rest =>
    have hq : (agentOf q.1).isSome = true := by
      refine hall q ?_
      rw [hsel]; exact List.mem_cons_self _ _
    obtain ⟨k0, hk0⟩ := Option.isSome_iff_exists.mp hq
    have htail : ∀ r ∈ rest, (agentOf r.1).isSome = true := by
      intro r hr
      refine hall r ?_
      rw [hsel]; exact List.mem_cons_of_mem _ hr
    have hlen2 : ps.length = rest.length + 1 := by
      rw [hlen, hsel]; simp
    have hmgr :
        managerProcess (.parsed (some analyses)) initState
          = { next_agent := q.1, current_cohort := q.2,
              pending_agents := rest.map Prod.fst,
              pending_cohorts := rest.map Prod.snd,
              results := { drug_analyses := [], diagnosis_analyses := [] },
              chat_history := [{ agent := "manager", cohort := q.2 }] } := by
      simp [managerProcess, hsel, initState]
    rw [hmgr]
    have h := runOld_all_ok rest q.1 q.2 ps
      { drug_analyses := [], diagnosis_analyses := [] }
      [{ agent := "manager", cohort := q.2 }] k0 hk0 htail hlen2
    refine ⟨?_, h.2.1, h.2.2.1, h.2.2.2⟩
    rw [h.1]
    simp [headCohort, selHist]

/-- Planner output used in the C6 witness: one drug cohort, then one
diagnosis cohort. -/
def c6Analyses : List CohortAnalysis :=
  [{ selected_agent := some "drug_agent", name := some "A" },
   { selected_agent := some "diagnosis_agent", name := some "B" }]

/-- C6 witness: the dispatch-order theorem applied to a concrete two-cohort
plan with successful steps. -/
theorem scheduler_dispatch_order_witness :
    (oldRun (.parsed (some c6Analyses))
        (["p1", "p2"].map StepOutcome.ok)).chat_history
        = [{ agent := "manager", cohort := "A" },
           { agent := "drug_agent", cohort := "A" },
           { agent := "diagnosis_agent", cohort := "B" }] ∧
      (oldRun (.parsed (some c6Analyses)) (["p1", "p2"].map StepOutcome.ok)).next_agent
        = "end" ∧
      (oldRun (.parsed (some c6Analyses)) (["p1", "p2"].map StepOutcome.ok)).pending_agents
        = [] ∧
      (oldRun (.parsed (some c6Analyses)) (["p1", "p2"].map StepOutcome.ok)).pending_cohorts
        = [] := by
  have h := scheduler_dispatch_order c6Analyses ["p1", "p2"] (by decide) (by decide)
  obtain ⟨h1, h2, h3, h4⟩ := h
  refine ⟨?_, h2, h3, h4⟩
  rw [h1]; decide

/-- C9: the two parallel pending lists always have equal length — the
manager installs one entry in each per queued selection, and every
specialist step either pops exactly one element from both lists or leaves
both untouched. -/
theorem pending_lists_parallel :
    (∀ (o : MgrOutcome) (s : OldState),
        s.pending_agents.length = s.pending_cohorts.length →
        (managerProcess o s).pending_agents.length
          = (managerProcess o s).pending_cohorts.length) ∧
      (∀ (k : AgentKind) (o : StepOutcome) (s : OldState),
        s.pending_agents.length = s.pending_cohorts.length →
        (specialistProcess k o s).pending_agents.length
          = (specialistProcess k o s).pending_cohorts.length) := by
  constructor
  · intro o s h
    cases o with
    | llmError => simpa [managerProcess] using h
    | parseEmpty => simpa [managerProcess] using h
    | parsed proposed =>
      cases proposed with
      | none => simpa [managerProcess] using h
      | some analyses =>
        cases hsel : buildSelections analyses with
        | nil => simpa [managerProcess, hsel] using h
        | cons q rest => simp [managerProcess, hsel]
  · intro k o s h
    obtain ⟨na, cc, pa, pc, res, hist⟩ := s
    cases o with
    | llmError => simpa [specialistProcess] using h
    | parseEmpty => simpa [specialistProcess] using h
    | ok payload =>
      cases pa with
      | nil =>
        cases pc with
        | nil => simp [specialistProcess]
        | cons c pc2 => simp at h
      | cons a pa2 =>
        cases pc with
        | nil => simp at h
        | cons c pc2 =>
          simp only [specialistProcess]
          simp at h
          exact h

/-- C9 witness: the invariant applied to one concrete manager outcome and
one concrete specialist step. -/
theorem pending_lists_parallel_witness :
    (managerProcess (.parsed (some c2Analyses)) initState).pending_agents.length
        = (managerProcess (.parsed (some c2Analyses)) initState).pending_cohorts.length ∧
      (specialistProcess .drug (.ok "payload")
          (managerProcess (.parsed (some c2Analyses)) initState)).pending_agents.length
        = (specialistProcess .drug (.ok "payload")
          (managerProcess (.parsed (some c2Analyses)) initState)).pending_cohorts.length := by
  constructor
  · exact pending_lists_parallel.1 (.parsed (some c2Analyses)) initState (by decide)
  · exact pending_lists_parallel.2 .drug (.ok "payload")
      (managerProcess (.parsed (some c2Analyses)) initState) (by decide)

/-!
Sanity evaluations of the embedded functions on small concrete inputs,
checking the model against the behavior of the Python originals.
-/

/-- Sanity: the JSON reader on well-formed and ill-formed inputs. -/
theorem jsonLoads_sanity :
    (jsonLoads "\x7b\"a\": 1\x7d").isSome = true ∧
      (jsonLoads "\x7b\"a\": 1,\x7d").isSome = false ∧
      (jsonLoads "[1, 2.5e3, \"x\", true, null]").isSome = true ∧
      (jsonLoads "hello").isSome = false ∧
      (jsonLoads "").isSome = false := by
  decide

/-- Sanity: the markdown normalizer on the brace path, the repair path and
the fallback path. -/
theorem extract_json_from_markdown_sanity :
    extract_json_from_markdown "text \x7b\"k\": true\x7d tail" = "\x7b\"k\": true\x7d" ∧
      extract_json_from_markdown "no json at all" = "no json at all" := by
  decide

/-- Sanity: the old-prototype response extraction returns on fenced,
brace-delimited and structureless inputs, raising only on the empty
capture. -/
theorem extract_json_from_response_sanity :
    (extract_json_from_response "no structure here").raised = false ∧
      (extract_json_from_response "```json\n\x7b\"a\": 1\x7d\n```").raised = false ∧
      (extract_json_from_response "x \x7b\"a\": 1\x7d y").raised = false ∧
      (extract_json_from_response "```json```").raised = true := by
  decide
